import Mathlib

/-!
A shallow embedding of `cli.py` (the BolnaPulse status monitor) in Lean 4,
together with theorems checking the natural-language specification of the
program against this embedding.

The embedding covers: the persistence layer (`_load_history`,
`_save_to_history`), the text processing (`clean_text`, `get_color`), the
conditional fetch (`fetch_update`), the per-entry body of the `listen`
polling loop (`process_entry`), and the date-range query branch of
`run_cli` (`queryRange`).

Python strings are modelled as Lean `String` (sequences of code points);
machine-level details (the event loop, the concrete HTTP client, the JSON
wire format) are abstracted exactly where the source delegates to library
code, as documented on each definition.
-/

namespace BolnaPulse

/-- Kinds of Python exception that the modelled fragments of `cli.py`
can raise: `attributeError` for calling `.lower()` on `None`,
`jsonDecodeError` for `json.load` on a malformed file, `ioError` for a
failed file write, `valueError` for `int()` on a non-numeral string. -/
inductive PyErr where
  | attributeError
  | jsonDecodeError
  | ioError
  | valueError
deriving DecidableEq

/-- Models Python `str.lower()` on the program inputs of interest
(ASCII case folding, one code point at a time). -/
def py_lower (s : String) : String := ⟨s.data.map Char.toLower⟩

/-- Helper for `py_in`: `seg_at needle hay` holds when `needle` occurs at
the very start of `hay`. -/
def seg_at : List Char → List Char → Bool
  | [], _ => true
  | _ :: _, [] => false
  | a :: xs, b :: ys => a = b && seg_at xs ys

/-- Models the Python substring test `needle in hay`: `needle` occurs
contiguously somewhere in `hay`. -/
def py_in (needle : List Char) : List Char → Bool
  | [] => needle.isEmpty
  | b :: ys => seg_at needle (b :: ys) || py_in needle ys

/-- Source `get_color` restricted to an actual string argument: lower-case
the title, test the red keyword set, then the yellow keyword set, else
green (`cli.py` lines 36-41). -/
def get_color_str (title : String) : String :=
  let t := py_lower title
  if ["down", "outage", "critical"].any (fun w => py_in w.data t.data) then "red"
  else if ["latency", "degraded", "issue"].any (fun w => py_in w.data t.data) then "yellow"
  else "green"

/-- Source `get_color` over its actual call-site domain: `listen` passes
`entry.get("title")`, which is `None` when the feed entry has no title.
The body starts with `title.lower()`, which raises `AttributeError` on
`None`; on a string it never fails. -/
def get_color : Option String → Except PyErr String
  | none => .error .attributeError
  | some t => .ok (get_color_str t)

/-- Characterization of `seg_at`: it decides whether the first list is an
initial run of the second. -/
theorem seg_at_iff (n h : List Char) : seg_at n h = true ↔ ∃ v, h = n ++ v := by
  induction n generalizing h with
  | nil => simp [seg_at]
  | cons a xs ih =>
    cases h with
    | nil => simp [seg_at]
    | cons b ys =>
      simp only [seg_at, Bool.and_eq_true, decide_eq_true_eq, ih, List.cons_append]
      constructor
      · rintro ⟨rfl, v, rfl⟩; exact ⟨v, rfl⟩
      · rintro ⟨v, hv⟩
        injection hv with h1 h2
        exact ⟨h1.symm, v, h2⟩

/-- Characterization of the Python substring test: `py_in n h` holds
exactly when `h` splits as `u ++ n ++ v`. -/
theorem py_in_iff (n h : List Char) : py_in n h = true ↔ ∃ u v, h = u ++ n ++ v := by
  induction h with
  | nil =>
    simp only [py_in, List.isEmpty_iff]
    constructor
    · rintro rfl; exact ⟨[], [], rfl⟩
    · rintro ⟨u, v, hv⟩
      rcases List.append_eq_nil.mp (List.append_eq_nil.mp hv.symm).1 with ⟨-, h2⟩
      exact h2
  | cons b ys ih =>
    simp only [py_in, Bool.or_eq_true, seg_at_iff, ih]
    constructor
    · rintro (⟨v, hv⟩ | ⟨u, v, hv⟩)
      · exact ⟨[], v, by simp [hv]⟩
      · exact ⟨b :: u, v, by simp [hv]⟩
    · rintro ⟨u, v, hv⟩
      cases u with
      | nil => exact Or.inl ⟨v, by simpa using hv⟩
      | cons c cs =>
        injection hv with h1 h2
        exact Or.inr ⟨cs, v, h2⟩

/-- One-pass scanner implementing `re.sub(r"<[^>]+>", "", html)` on a list
of code points.  The first argument is the buffer of a pending candidate
match, in reverse order, or `none` when the scanner is outside any
candidate: on seeing `<` outside, the scanner starts buffering; inside a
buffer, a `>` either completes a match (at least one character stood
between the brackets — the mandatory `[^>]+` — so the whole buffered
region is deleted together with the `>`) or, when the buffer holds only
`<`, the regex fails at that position (`[^>]+` matched nothing) and both
characters are emitted; end of input flushes an unclosed buffer verbatim.
This is exactly the leftmost, non-overlapping match discipline of
`re.sub` for this pattern. -/
def stripTagsAux : Option (List Char) → List Char → List Char
  | none, [] => []
  | some buf, [] => buf.reverse
  | none, c :: rest =>
    if c = '<' then stripTagsAux (some ['<']) rest else c :: stripTagsAux none rest
  | some buf, c :: rest =>
    if c = '>' then
      if 2 ≤ buf.length then stripTagsAux none rest
      else buf.reverse ++ '>' :: stripTagsAux none rest
    else stripTagsAux (some (c :: buf)) rest

/-- Tag removal pass of `clean_text`: `re.sub(r"<[^>]+>", "", html)`. -/
def stripTags (l : List Char) : List Char := stripTagsAux none l

/-- Left-trim of Python `str.strip()`: drop leading whitespace. -/
def trimL (l : List Char) : List Char := l.dropWhile Char.isWhitespace

/-- Right-trim of Python `str.strip()`: drop trailing whitespace. -/
def trimR (l : List Char) : List Char := (l.reverse.dropWhile Char.isWhitespace).reverse

/-- Models Python `str.strip()`: remove leading and trailing whitespace. -/
def pyStrip (l : List Char) : List Char := trimR (trimL l)

/-- Source `clean_text` (`cli.py` lines 33-34):
`re.sub(r"<[^>]+>", "", html).strip()`. -/
def clean_text (html : String) : String := ⟨pyStrip (stripTags html.data)⟩

/-- A list of code points contains an occurrence of the tag pattern
`<[^>]+>`: it splits as `a ++ [<] ++ mid ++ [>] ++ b` with `mid` a
nonempty run free of `>`. -/
def HasTagPat (l : List Char) : Prop :=
  ∃ a mid b, l = a ++ '<' :: (mid ++ '>' :: b) ∧ mid ≠ [] ∧ '>' ∉ mid

theorem hasTagPat_cons {l : List Char} (c : Char) (h : HasTagPat l) :
    HasTagPat (c :: l) := by
  obtain ⟨a, mid, b, rfl, hm, hmem⟩ := h
  exact ⟨c :: a, mid, b, rfl, hm, hmem⟩

/-- A tag pattern found in a contiguous segment of `l` is a tag pattern
of `l`. -/
theorem hasTagPat_of_seg {s l : List Char} (hseg : ∃ u v, l = u ++ s ++ v)
    (h : HasTagPat s) : HasTagPat l := by
  obtain ⟨u, v, rfl⟩ := hseg
  obtain ⟨a, mid, b, rfl, hm, hmem⟩ := h
  exact ⟨u ++ a, mid, b ++ v, by simp, hm, hmem⟩

/-- Joint invariant for the scanner on pattern-free input: outside any
buffer the scanner copies its input, and inside a buffer holding
`< :: v` (with no `>` in `v`) it reproduces `< :: v ++ rest` whenever the
original text carries no tag pattern. -/
theorem stripTagsAux_clean :
    ∀ n : Nat,
      (∀ l : List Char, l.length ≤ n → ¬ HasTagPat l → stripTagsAux none l = l) ∧
      (∀ rest v : List Char, rest.length ≤ n → '>' ∉ v →
        ¬ HasTagPat ('<' :: (v ++ rest)) →
        stripTagsAux (some (v.reverse ++ ['<'])) rest = '<' :: (v ++ rest)) := by
  intro n
  induction n with
  | zero =>
    constructor
    · intro l hl _
      have h0 : l = [] := List.length_eq_zero.mp (Nat.le_zero.mp hl)
      subst h0
      rfl
    · intro rest v hrest _ _
      have h0 : rest = [] := List.length_eq_zero.mp (Nat.le_zero.mp hrest)
      subst h0
      simp [stripTagsAux]
  | succ n ih =>
    constructor
    · intro l hl htag
      match l with
      | [] => rfl
      | c :: rest =>
        by_cases hc : c = '<'
        · subst hc
          have h1 : stripTagsAux none ('<' :: rest) = stripTagsAux (some ['<']) rest := by
            simp [stripTagsAux]
          rw [h1]
          have h2 := ih.2 rest [] (Nat.le_of_succ_le_succ hl) (by simp)
            (by simpa using htag)
          simpa using h2
        · have h1 : stripTagsAux none (c :: rest) = c :: stripTagsAux none rest := by
            simp [stripTagsAux, hc]
          rw [h1, ih.1 rest (Nat.le_of_succ_le_succ hl)
            (fun h => htag (hasTagPat_cons c h))]
    · intro rest v hrest hv htag
      match rest with
      | [] => simp [stripTagsAux]
      | c :: rest' =>
        by_cases hc : c = '>'
        · subst hc
          by_cases hvnil : v = []
          · subst hvnil
            have h1 : stripTagsAux (some (List.reverse [] ++ ['<'])) ('>' :: rest')
                = '<' :: '>' :: stripTagsAux none rest' := by
              simp [stripTagsAux]
            rw [h1]
            have h2 : ¬ HasTagPat rest' := fun h =>
              htag (by simpa using hasTagPat_cons '<' (hasTagPat_cons '>' h))
            rw [ih.1 rest' (Nat.le_of_succ_le_succ hrest) h2]
            simp
          · exact absurd ⟨[], v, rest', by simp, hvnil, hv⟩ htag
        · have h1 : stripTagsAux (some (v.reverse ++ ['<'])) (c :: rest')
              = stripTagsAux (some ((v ++ [c]).reverse ++ ['<'])) rest' := by
            simp [stripTagsAux, hc]
          rw [h1]
          have hv' : '>' ∉ v ++ [c] := by
            simp only [List.mem_append, List.mem_singleton]
            rintro (h | h)
            · exact hv h
            · exact hc h.symm
          have h2 := ih.2 rest' (v ++ [c]) (Nat.le_of_succ_le_succ hrest) hv'
            (by simpa using htag)
          rw [h2]
          simp

/-- On input with no occurrence of the tag pattern, the tag removal pass
is the identity. -/
theorem stripTags_of_clean {l : List Char} (h : ¬ HasTagPat l) :
    stripTags l = l :=
  (stripTagsAux_clean l.length).1 l le_rfl h

/-- `pyStrip l` is a contiguous segment of `l`. -/
theorem pyStrip_seg (l : List Char) : ∃ u v, l = u ++ pyStrip l ++ v := by
  have h2 := List.takeWhile_append_dropWhile (p := Char.isWhitespace)
    (l := (trimL l).reverse)
  have hB : trimL l
      = pyStrip l ++ ((trimL l).reverse.takeWhile Char.isWhitespace).reverse := by
    calc trimL l = (trimL l).reverse.reverse := (List.reverse_reverse _).symm
      _ = ((trimL l).reverse.takeWhile Char.isWhitespace
            ++ (trimL l).reverse.dropWhile Char.isWhitespace).reverse := by rw [h2]
      _ = pyStrip l ++ ((trimL l).reverse.takeWhile Char.isWhitespace).reverse := by
            rw [List.reverse_append]; rfl
  have hA0 : l = l.takeWhile Char.isWhitespace ++ trimL l :=
    (List.takeWhile_append_dropWhile (p := Char.isWhitespace) (l := l)).symm
  have hA : l = l.takeWhile Char.isWhitespace
      ++ (pyStrip l ++ ((trimL l).reverse.takeWhile Char.isWhitespace).reverse) :=
    hA0.trans (congrArg (l.takeWhile Char.isWhitespace ++ ·) hB)
  exact ⟨_, _, hA.trans (List.append_assoc _ _ _).symm⟩

theorem dropWhile_dropWhile (p : α → Bool) (l : List α) :
    (l.dropWhile p).dropWhile p = l.dropWhile p := by
  induction l with
  | nil => rfl
  | cons c t ih =>
    by_cases h : p c
    · simp [List.dropWhile_cons, h, ih]
    · simp [List.dropWhile_cons, h]

/-- `dropWhile` yields either the empty list or a list whose head
falsifies the predicate. -/
theorem dropWhile_head_cases (p : α → Bool) (l : List α) :
    l.dropWhile p = [] ∨ ∃ c t, l.dropWhile p = c :: t ∧ p c = false := by
  induction l with
  | nil => exact Or.inl rfl
  | cons c t ih =>
    by_cases h : p c
    · simpa [List.dropWhile_cons, h] using ih
    · exact Or.inr ⟨c, t, by simp [List.dropWhile_cons, h], by simpa using h⟩

theorem trimR_trimR (l : List Char) : trimR (trimR l) = trimR l := by
  unfold trimR
  rw [List.reverse_reverse, dropWhile_dropWhile]

theorem trimL_trimR_trimL (l : List Char) :
    trimL (trimR (trimL l)) = trimR (trimL l) := by
  rcases dropWhile_head_cases Char.isWhitespace ((trimL l).reverse) with h | ⟨c, t, h, hc⟩
  · show trimL (trimR (trimL l)) = trimR (trimL l)
    unfold trimR
    rw [h]
    rfl
  · -- the right-trimmed list is a front segment of `trimL l`; if nonempty
    -- its head equals the head of `trimL l`, which is non-whitespace.
    have hfront : trimL l = trimR (trimL l)
        ++ ((trimL l).reverse.takeWhile Char.isWhitespace).reverse := by
      have h2 := List.takeWhile_append_dropWhile (p := Char.isWhitespace)
        (l := (trimL l).reverse)
      calc trimL l = (trimL l).reverse.reverse := (List.reverse_reverse _).symm
        _ = ((trimL l).reverse.takeWhile Char.isWhitespace
              ++ (trimL l).reverse.dropWhile Char.isWhitespace).reverse := by rw [h2]
        _ = _ := by rw [List.reverse_append]; rfl
    rcases dropWhile_head_cases Char.isWhitespace l with h0 | ⟨c0, t0, h0, hc0⟩
    · -- trimL l = [] forces its reverse-dropWhile to be [] too,
      -- contradicting h unless both are empty
      have : trimL l = [] := h0
      rw [this] at h
      simp at h
    · have hTL : trimL l = c0 :: t0 := h0
      have hTR : trimR (trimL l) = t.reverse ++ [c] := by
        unfold trimR
        rw [h, List.reverse_cons]
      cases htr : t.reverse with
      | nil =>
        rw [hTR, htr]
        show trimL [c] = [c]
        unfold trimL
        rw [List.dropWhile_cons_of_neg (by simp [hc])]
      | cons d ds =>
        have hd : d = c0 := by
          rw [hTR, htr] at hfront
          rw [hTL] at hfront
          injection hfront with h1 _
          exact h1.symm
        rw [hTR, htr, hd]
        show trimL (c0 :: (ds ++ [c])) = c0 :: (ds ++ [c])
        unfold trimL
        rw [List.dropWhile_cons_of_neg (by simp [hc0])]

theorem pyStrip_pyStrip (l : List Char) : pyStrip (pyStrip l) = pyStrip l := by
  show trimR (trimL (trimR (trimL l))) = trimR (trimL l)
  rw [trimL_trimR_trimL, trimR_trimR]

/-- The persisted incident record, one JSON object of the store: the dict
built in `listen` (`cli.py` lines 67-74).  `id` and `title` are the raw
results of `entry.get(...)`, hence possibly `None`. -/
structure Record where
  id : Option String
  date : String
  timestamp : String
  title : Option String
  status : String
  color : String
deriving DecidableEq

/-- The durable store file `status_history.json`, abstracted at the
boundary of the `json` library: it is absent, or it is present but does
not parse as JSON, or it parses to a list of records.  `json.dump`
followed by `json.load` on such a list of string-valued fields is the
identity, so a well-formed file is identified with its parsed content. -/
inductive FileState where
  | absent
  | corrupt
  | valid (recs : List Record)
deriving DecidableEq

/-- Source `_load_history` (`cli.py` lines 21-25): if the file exists,
`json.load` it (raising `json.JSONDecodeError` on a malformed file,
which nothing in the source catches); otherwise return `[]`. -/
def _load_history : FileState → Except PyErr (List Record)
  | .absent => .ok []
  | .corrupt => .error .jsonDecodeError
  | .valid recs => .ok recs

/-- The process-wide mutable state of the `BolnaPulse` object that the
store operations touch: the in-memory `self.history`, the `self.seen_ids`
set, and the durable file. -/
structure St where
  history : List Record
  seen : Finset (Option String)
  file : FileState
deriving DecidableEq

/-- Source `_save_to_history` (`cli.py` lines 27-30): first
`self.history.append(entry_data)` mutates the in-memory list, then the
full list is rewritten to the file.  `writeOk` is the environment: when
the write fails (filesystem full, permissions), the raised `IOError`
propagates and the error carries the state as the exception leaves it —
the in-memory append has already happened.  A failed write is modelled
as leaving the durable file in its previous state (as when `open` itself
fails); partial-write corruption is not distinguished. -/
def _save_to_history (st : St) (entry_data : Record) (writeOk : Bool) :
    Except (PyErr × St) St :=
  let st1 : St := { st with history := st.history ++ [entry_data] }
  if writeOk then .ok { st1 with file := .valid st1.history }
  else .error (.ioError, st1)

/-- Models `datetime.now().strftime("%d%m%Y")` for a clock reading
`(d, m, y)`: the zero-padded two-digit day and month and four-digit year
(the ranges `datetime` produces). -/
def pad2 (n : Nat) : String := ⟨[Nat.digitChar (n / 10), Nat.digitChar (n % 10)]⟩

def pad4 (n : Nat) : String :=
  ⟨[Nat.digitChar (n / 1000), Nat.digitChar (n / 100 % 10),
    Nat.digitChar (n / 10 % 10), Nat.digitChar (n % 10)]⟩

def format_ddmmyyyy (d m y : Nat) : String := pad2 d ++ pad2 m ++ pad4 y

/-- Models Python string slicing `s[:n]`: the first `n` code points. -/
def py_slice (s : String) (n : Nat) : String := ⟨s.data.take n⟩

/-- A parsed feed entry as `listen` consumes it: `entry.get("id")`,
`entry.get("title")` and `entry.get("summary", ...)` may each be absent. -/
structure FeedEntry where
  id : Option String
  title : Option String
  summary : Option String
deriving DecidableEq

/-- The console line printed for a new record:
`f"\n🚨 NEW UPDATE: {data['timestamp']} | {data['title']}"`; an f-string
renders `None` as the text `None`. -/
def mkNote (ts : String) (title : Option String) : String :=
  "\n🚨 NEW UPDATE: " ++ ts ++ " | " ++ (match title with
    | some t => t
    | none => "None")

/-- Result of running the per-entry body of `listen` on one feed entry:
the state afterwards, the console notifications printed, and the
exception, if one escaped (nothing in `listen` catches it, so it would
terminate the loop). -/
structure StepOut where
  state : St
  notes : List String
  err : Option PyErr
deriving DecidableEq

/-- The record dict built in `listen` for a fresh entry (`cli.py` lines
67-74): the raw id and title, the formatted clock reading, the cleaned
summary sliced to its first 200 code points, and the computed color. -/
def entry_record (e : FeedEntry) (d m y : Nat) (ts : String) (color : String) :
    Record :=
  ⟨e.id, format_ddmmyyyy d m y, ts, e.title,
    py_slice (clean_text (e.summary.getD "No details")) 200, color⟩

/-- The body of the inner `for entry in feed.entries` loop of `listen`
(`cli.py` lines 63-78), in source order: if `entry.get("id")` is already
in `self.seen_ids`, nothing happens; otherwise the summary is cleaned,
the record dict is built (evaluating `get_color(entry.get("title"))`,
which raises on a missing title, before anything is printed or saved),
the notification is printed only when `self.seen_ids` is nonempty, then
`_save_to_history` runs (its `IOError` propagating after the in-memory
append), and only then is the id added to `self.seen_ids`.  The clock
reading `(d, m, y, ts)` stands for `datetime.now()`. -/
def process_entry (st : St) (e : FeedEntry) (d m y : Nat) (ts : String)
    (writeOk : Bool) : StepOut :=
  if e.id ∈ st.seen then ⟨st, [], none⟩
  else
    match get_color e.title with
    | .error er => ⟨st, [], some er⟩
    | .ok color =>
      let data : Record := entry_record e d m y ts color
      let notes := if st.seen = ∅ then [] else [mkNote ts e.title]
      match _save_to_history st data writeOk with
      | .ok st1 => ⟨{ st1 with seen := insert e.id st1.seen }, notes, none⟩
      | .error (er, stBad) => ⟨stBad, notes, some er⟩

/-- An HTTP attempt against a feed endpoint, as `fetch_update` observes
it: either a response with a status code, an optional `ETag` header and
a body already run through `feedparser.parse` (which is total and yields
the ordered entry list), or a transport-level failure raised by the
client (timeout, DNS, connection error) at any point of the request. -/
inductive HttpResult where
  | response (status : Nat) (etag : Option String) (entries : List FeedEntry)
  | transportError
deriving DecidableEq

/-- Source `fetch_update` (`cli.py` lines 44-54), as a function of the
cached `ETag` for the endpoint and the outcome of the HTTP attempt.
Status 304 returns `None` before the cache is touched; status 200 stores
`resp.headers.get("ETag")` and returns the parsed feed; any other status
falls through to the trailing `return None`; every raised exception is
caught and logged, also falling through to `return None`. -/
def fetch_update (etag : Option String) (r : HttpResult) :
    Option String × Option (List FeedEntry) :=
  match r with
  | .transportError => (etag, none)
  | .response status retag entries =>
    if status = 304 then (etag, none)
    else if status = 200 then (retag, some entries)
    else (etag, none)

/-- Decimal value of a digit run (most significant first). -/
def natOfDigits (l : List Char) : Nat :=
  l.foldl (fun acc c => acc * 10 + (c.toNat - '0'.toNat)) 0

/-- Models Python `int(s)` on its sign-and-digits core: an optional
leading minus followed by a nonempty digit run (leading zeros allowed,
as in `int("01012024")`); anything else raises `ValueError`, returned
here as `none`. -/
def py_int (s : String) : Option Int :=
  match s.data with
  | '-' :: rest =>
    if rest ≠ [] ∧ rest.all Char.isDigit then some (-(natOfDigits rest : Int))
    else none
  | l =>
    if l ≠ [] ∧ l.all Char.isDigit then some (natOfDigits l : Int)
    else none

/-- The `range` command branch of `run_cli` (`cli.py` lines 103-106):
iterate over the history in order and keep each record whose `date`
numeral lies between the two argument numerals, comparing as Python
`int`.  `int(...)` on a non-numeral raises `ValueError`; the chained
comparison evaluates `int(args.start)`, then `int(e['date'])`, and
`int(args.end)` only when the first comparison held. -/
def queryRange (startS endS : String) : List Record → Except PyErr (List Record)
  | [] => .ok []
  | r :: rest =>
    match py_int startS with
    | none => .error .valueError
    | some a =>
      match py_int r.date with
      | none => .error .valueError
      | some b =>
        if a ≤ b then
          match py_int endS with
          | none => .error .valueError
          | some c =>
            match queryRange startS endS rest with
            | .ok l => .ok (if b ≤ c then r :: l else l)
            | .error er => .error er
        else
          queryRange startS endS rest

/-- The seen-id set the constructor derives from the loaded history:
`self.seen_ids = {entry['id'] for entry in self.history}` (`cli.py`
line 17). -/
def idsOf (h : List Record) : Finset (Option String) := (h.map Record.id).toFinset

/-- The loop invariant relating the in-memory structures: the seen-id set
is exactly the set of ids of the in-memory history, and no id occurs
twice in the history. -/
def StInv (st : St) : Prop :=
  st.seen = idsOf st.history ∧ (st.history.map Record.id).Nodup

/-- Case-insensitive substring containment, stated independently of the
code: the keyword occurs contiguously in the lower-cased title. -/
def CiContains (t w : String) : Prop :=
  ∃ u v, (py_lower t).data = u ++ w.data ++ v

/-- The disjunctive reading of the keyword test the code performs with
`any`. -/
theorem any_keyword_iff (w1 w2 w3 t : String) :
    ([w1, w2, w3].any (fun w => py_in w.data (py_lower t).data) = true)
      ↔ (CiContains t w1 ∨ CiContains t w2 ∨ CiContains t w3) := by
  simp [List.any_cons, List.any_nil, py_in_iff, CiContains]

/-- C5: for every title, a red keyword (`down`, `outage`, `critical`)
occurring case-insensitively as a substring forces the result `red`
(so red takes precedence even when yellow keywords also occur); with no
red keyword, a yellow keyword (`latency`, `degraded`, `issue`) forces
`yellow`; with neither, the result is `green`. -/
theorem get_color_keyword_mapping : ∀ t : String,
    ((CiContains t "down" ∨ CiContains t "outage" ∨ CiContains t "critical") →
      get_color (some t) = .ok "red")
    ∧ (¬(CiContains t "down" ∨ CiContains t "outage" ∨ CiContains t "critical") →
      (CiContains t "latency" ∨ CiContains t "degraded" ∨ CiContains t "issue") →
      get_color (some t) = .ok "yellow")
    ∧ (¬(CiContains t "down" ∨ CiContains t "outage" ∨ CiContains t "critical") →
      ¬(CiContains t "latency" ∨ CiContains t "degraded" ∨ CiContains t "issue") →
      get_color (some t) = .ok "green") := by
  intro t
  refine ⟨fun hred => ?_, fun hnred hyel => ?_, fun hnred hnyel => ?_⟩
  · simp only [get_color, get_color_str]
    rw [if_pos ((any_keyword_iff "down" "outage" "critical" t).mpr hred)]
  · simp only [get_color, get_color_str]
    rw [if_neg (fun h => hnred ((any_keyword_iff "down" "outage" "critical" t).mp h)),
      if_pos ((any_keyword_iff "latency" "degraded" "issue" t).mpr hyel)]
  · simp only [get_color, get_color_str]
    rw [if_neg (fun h => hnred ((any_keyword_iff "down" "outage" "critical" t).mp h)),
      if_neg (fun h => hnyel ((any_keyword_iff "latency" "degraded" "issue" t).mp h))]

/-- C5 witness: a title carrying keywords of both sets classifies red. -/
theorem get_color_keyword_mapping_witness :
    get_color (some "Major OUTAGE: API degraded") = .ok "red" :=
  (get_color_keyword_mapping "Major OUTAGE: API degraded").1
    (Or.inr (Or.inl ((py_in_iff "outage".data
      (py_lower "Major OUTAGE: API degraded").data).mp (by decide))))

/-- C3 counterexample: on an absent (`None`) title, `get_color` raises
`AttributeError` (from `None.lower()`) instead of yielding green. -/
theorem get_color_none_counterexample :
    get_color none = .error .attributeError ∧ get_color none ≠ .ok "green" :=
  ⟨rfl, fun h => Except.noConfusion h⟩

/-- C3 amended: `get_color` is total on string titles, always yielding
one of green, yellow, red, and the empty string yields green; an absent
(`None`) title is not treated as green — it raises `AttributeError`. -/
theorem get_color_total_on_strings :
    (∀ s : String,
      get_color (some s) = .ok "green" ∨ get_color (some s) = .ok "yellow"
        ∨ get_color (some s) = .ok "red")
    ∧ get_color (some "") = .ok "green"
    ∧ get_color none = .error .attributeError := by
  refine ⟨fun s => ?_, rfl, rfl⟩
  simp only [get_color, get_color_str]
  split
  · right; right; rfl
  · split
    · right; left; rfl
    · left; rfl

/-- C4 counterexample: on a present but unparseable store file, load
raises `json.JSONDecodeError` instead of returning the empty history. -/
theorem load_history_corrupt_counterexample :
    _load_history .corrupt = .error .jsonDecodeError
      ∧ _load_history .corrupt ≠ .ok [] :=
  ⟨rfl, fun h => Except.noConfusion h⟩

/-- C4 amended: load returns the empty sequence when the file is absent
and the stored ordered sequence when the file parses; a present but
unparseable file raises (the decode error propagates) instead of being
treated as empty history. -/
theorem load_history_cases :
    _load_history .absent = .ok []
    ∧ (∀ recs, _load_history (.valid recs) = .ok recs)
    ∧ _load_history .corrupt = .error .jsonDecodeError :=
  ⟨rfl, fun _ => rfl, rfl⟩

/-- C6: a 304 response returns no update and leaves the cached `ETag`
unchanged; a 200 response stores the response `ETag` header and returns
the parsed entries; a transport failure or any other status returns no
update without raising. -/
theorem fetch_update_contract :
    ∀ (etag retag : Option String) (entries : List FeedEntry) (s : Nat),
    fetch_update etag (.response 304 retag entries) = (etag, none)
    ∧ fetch_update etag (.response 200 retag entries) = (retag, some entries)
    ∧ fetch_update etag .transportError = (etag, none)
    ∧ (s ≠ 304 → s ≠ 200 →
        fetch_update etag (.response s retag entries) = (etag, none)) := by
  intro etag retag entries s
  refine ⟨by simp [fetch_update], by simp [fetch_update], rfl, fun h1 h2 => ?_⟩
  simp [fetch_update, h1, h2]

/-- C6 witness: a 500 response leaves the cache unchanged and yields no
update. -/
theorem fetch_update_contract_witness :
    fetch_update (some "W/abc") (.response 500 (some "W/new") []) = (some "W/abc", none) :=
  (fetch_update_contract (some "W/abc") (some "W/new") [] 500).2.2.2
    (by decide) (by decide)

theorem process_entry_skip {st : St} {e : FeedEntry} (d m y : Nat) (ts : String)
    (w : Bool) (hmem : e.id ∈ st.seen) :
    process_entry st e d m y ts w = ⟨st, [], none⟩ := by
  simp [process_entry, hmem]

theorem process_entry_no_title {st : St} {e : FeedEntry} (d m y : Nat)
    (ts : String) (w : Bool) (hmem : e.id ∉ st.seen) (ht : e.title = none) :
    process_entry st e d m y ts w = ⟨st, [], some .attributeError⟩ := by
  simp [process_entry, hmem, ht, get_color]

theorem process_entry_fresh_ok {st : St} {e : FeedEntry} {t : String}
    (d m y : Nat) (ts : String) (hmem : e.id ∉ st.seen) (ht : e.title = some t) :
    process_entry st e d m y ts true =
      ⟨⟨st.history ++ [entry_record e d m y ts (get_color_str t)],
          insert e.id st.seen,
          .valid (st.history ++ [entry_record e d m y ts (get_color_str t)])⟩,
        if st.seen = ∅ then [] else [mkNote ts e.title], none⟩ := by
  simp [process_entry, hmem, ht, get_color, _save_to_history]

theorem process_entry_fresh_fail {st : St} {e : FeedEntry} {t : String}
    (d m y : Nat) (ts : String) (hmem : e.id ∉ st.seen) (ht : e.title = some t) :
    process_entry st e d m y ts false =
      ⟨⟨st.history ++ [entry_record e d m y ts (get_color_str t)],
          st.seen, st.file⟩,
        if st.seen = ∅ then [] else [mkNote ts e.title], some .ioError⟩ := by
  simp [process_entry, hmem, ht, get_color, _save_to_history]

/-- C1: an entry whose id is already in the seen-id set is skipped
entirely — state untouched, nothing printed, no exception; and one fully
processed entry (no exception escaped) preserves the invariant that the
seen-id set equals the set of ids of the in-memory history and that no
id occurs twice in the history. -/
theorem process_entry_at_most_once :
    ∀ (st : St) (e : FeedEntry) (d m y : Nat) (ts : String) (w : Bool),
    (e.id ∈ st.seen → process_entry st e d m y ts w = ⟨st, [], none⟩)
    ∧ (StInv st → (process_entry st e d m y ts w).err = none →
        StInv (process_entry st e d m y ts w).state) := by
  intro st e d m y ts w
  refine ⟨fun hmem => process_entry_skip d m y ts w hmem, fun hinv herr => ?_⟩
  by_cases hmem : e.id ∈ st.seen
  · rw [process_entry_skip d m y ts w hmem]
    exact hinv
  · cases ht : e.title with
    | none =>
      rw [process_entry_no_title d m y ts w hmem ht] at herr
      exact absurd herr (by simp)
    | some t =>
      cases w with
      | false =>
        rw [process_entry_fresh_fail d m y ts hmem ht] at herr
        exact absurd herr (by simp)
      | true =>
        rw [process_entry_fresh_ok d m y ts hmem ht]
        obtain ⟨hseen, hnodup⟩ := hinv
        have hid : (entry_record e d m y ts (get_color_str t)).id = e.id := rfl
        have hnotin : e.id ∉ st.history.map Record.id := by
          intro h
          exact hmem (hseen ▸ List.mem_toFinset.mpr h)
        constructor
        · show insert e.id st.seen
            = idsOf (st.history ++ [entry_record e d m y ts (get_color_str t)])
          rw [hseen]
          unfold idsOf
          rw [List.map_append, List.toFinset_append]
          simp [hid, Finset.union_comm, Finset.insert_eq]
        · show ((st.history ++ [entry_record e d m y ts (get_color_str t)]).map
            Record.id).Nodup
          rw [List.map_append]
          rw [List.nodup_append]
          exact ⟨hnodup, by simp [hid], by
            intro x hx hx'
            simp [hid] at hx'
            exact hnotin (hx' ▸ hx)⟩

/-- C1 witness: from the empty state, one fresh entry is ingested and the
invariant holds afterwards; processing the same entry again is a no-op. -/
theorem process_entry_at_most_once_witness :
    StInv ((process_entry ⟨[], ∅, .absent⟩ ⟨some "a", some "Partial Outage", some "x"⟩
      1 1 2024 "2024-01-01 00:00:00" true).state) :=
  (process_entry_at_most_once ⟨[], ∅, .absent⟩
      ⟨some "a", some "Partial Outage", some "x"⟩ 1 1 2024 "2024-01-01 00:00:00"
      true).2
    ⟨by decide, by decide⟩ (by decide)

/-- C2 counterexample: (i) from a fresh empty store, the first accepted
entry is appended and fully processed, yet no notification is printed
(the `if self.seen_ids:` guard is false before the first id is added);
(ii) when the durable write fails, the notification has already been
printed (the `print` precedes `_save_to_history`), so a record rejected
by a persistence failure is still announced. -/
theorem process_entry_notification_counterexample :
    ((process_entry ⟨[], ∅, .absent⟩ ⟨some "a", some "Partial Outage", some "x"⟩
        1 1 2024 "2024-01-01 00:00:00" true).notes = []
      ∧ (process_entry ⟨[], ∅, .absent⟩ ⟨some "a", some "Partial Outage", some "x"⟩
        1 1 2024 "2024-01-01 00:00:00" true).state.history ≠ []
      ∧ (process_entry ⟨[], ∅, .absent⟩ ⟨some "a", some "Partial Outage", some "x"⟩
        1 1 2024 "2024-01-01 00:00:00" true).err = none)
    ∧ ((process_entry ⟨[], {some "z"}, .absent⟩ ⟨some "b", some "t", none⟩
        1 1 2024 "ts" false).err = some .ioError
      ∧ (process_entry ⟨[], {some "z"}, .absent⟩ ⟨some "b", some "t", none⟩
        1 1 2024 "ts" false).notes ≠ []) := by
  refine ⟨⟨by decide, by decide, by decide⟩, by decide, by decide⟩

/-- C2 amended: the console notification fires exactly for entries whose
id is unseen and whose record construction succeeds, provided the
seen-id set is nonempty at that moment — the first record accepted into
an empty store is ingested silently; the line is printed before the
durable write, hence independently of whether that write then fails; it
never fires for an already-seen entry; and the line contains the
timestamp and the title. -/
theorem process_entry_notification :
    ∀ (st : St) (e : FeedEntry) (d m y : Nat) (ts t : String) (w : Bool),
    (e.id ∈ st.seen → (process_entry st e d m y ts w).notes = [])
    ∧ (e.id ∉ st.seen → e.title = some t → st.seen ≠ ∅ →
        (process_entry st e d m y ts w).notes = [mkNote ts (some t)])
    ∧ (e.id ∉ st.seen → e.title = some t → st.seen = ∅ →
        (process_entry st e d m y ts w).notes = [])
    ∧ py_in ts.data (mkNote ts (some t)).data = true
    ∧ py_in t.data (mkNote ts (some t)).data = true := by
  intro st e d m y ts t w
  have hnote : (mkNote ts (some t)).data
      = "\n🚨 NEW UPDATE: ".data ++ ts.data ++ (" | ".data ++ t.data) := by
    show ("\n🚨 NEW UPDATE: " ++ ts ++ " | " ++ t).data = _
    simp [String.data_append, List.append_assoc]
  refine ⟨fun hmem => ?_, fun hmem ht hne => ?_, fun hmem ht hemp => ?_, ?_, ?_⟩
  · rw [process_entry_skip d m y ts w hmem]
  · cases w with
    | true => rw [process_entry_fresh_ok d m y ts hmem ht]; simp [hne, ht]
    | false => rw [process_entry_fresh_fail d m y ts hmem ht]; simp [hne, ht]
  · cases w with
    | true => rw [process_entry_fresh_ok d m y ts hmem ht]; simp [hemp]
    | false => rw [process_entry_fresh_fail d m y ts hmem ht]; simp [hemp]
  · exact (py_in_iff _ _).mpr ⟨"\n🚨 NEW UPDATE: ".data, " | ".data ++ t.data,
      by rw [hnote, List.append_assoc]⟩
  · exact (py_in_iff _ _).mpr ⟨"\n🚨 NEW UPDATE: ".data ++ ts.data ++ " | ".data, [],
      by rw [hnote]; simp [List.append_assoc]⟩

/-- C2 amended witness: with a nonempty seen-id set, a fresh entry is
announced exactly once even though its durable write fails. -/
theorem process_entry_notification_witness :
    (process_entry ⟨[], {some "z"}, .absent⟩ ⟨some "b", some "Down", none⟩
      1 1 2024 "TS" false).notes = [mkNote "TS" (some "Down")] :=
  (process_entry_notification ⟨[], {some "z"}, .absent⟩
      ⟨some "b", some "Down", none⟩ 1 1 2024 "TS" "Down" false).2.1
    (by decide) rfl (by decide)

/-- C10: a failing durable write inside `_save_to_history` propagates as
an exception; at that moment the in-memory history already holds the new
record while the seen-id set does not yet hold its id — the append is
not rolled back, so the two structures diverge. -/
theorem save_failure_propagates :
    ∀ (st : St) (e : FeedEntry) (r : Record) (d m y : Nat) (ts t : String),
    _save_to_history st r false
      = .error (.ioError, ⟨st.history ++ [r], st.seen, st.file⟩)
    ∧ (e.id ∉ st.seen → e.title = some t →
        (process_entry st e d m y ts false).err = some .ioError
        ∧ (process_entry st e d m y ts false).state.history
            = st.history ++ [entry_record e d m y ts (get_color_str t)]
        ∧ (process_entry st e d m y ts false).state.seen = st.seen
        ∧ e.id ∉ (process_entry st e d m y ts false).state.seen) := by
  intro st e r d m y ts t
  refine ⟨rfl, fun hmem ht => ?_⟩
  rw [process_entry_fresh_fail d m y ts hmem ht]
  exact ⟨rfl, rfl, rfl, hmem⟩

/-- C10 witness: a concrete fresh entry under a failing write — the
exception escapes, the record is in memory, its id is not yet seen. -/
theorem save_failure_propagates_witness :
    (process_entry ⟨[], ∅, .absent⟩ ⟨some "a", some "T", none⟩
        1 1 2024 "TS" false).err = some .ioError
    ∧ (process_entry ⟨[], ∅, .absent⟩ ⟨some "a", some "T", none⟩
        1 1 2024 "TS" false).state.seen = ∅ :=
  ⟨((save_failure_propagates ⟨[], ∅, .absent⟩ ⟨some "a", some "T", none⟩
      ⟨none, "", "", none, "", ""⟩ 1 1 2024 "TS" "T").2 (by decide) rfl).1,
    ((save_failure_propagates ⟨[], ∅, .absent⟩ ⟨some "a", some "T", none⟩
      ⟨none, "", "", none, "", ""⟩ 1 1 2024 "TS" "T").2 (by decide) rfl).2.2.1⟩

/-- C7: `_save_to_history` followed by `_load_history` round-trips — the
rewritten file holds exactly the in-memory sequence, loading it returns
that sequence, whose last element is the appended record unchanged in
every field and whose preceding elements are the prior sequence in
order; the records the loop builds carry a status of at most 200 code
points and an 8-digit all-numeric `DDMMYYYY` date. -/
theorem save_load_round_trip :
    ∀ (st : St) (r : Record) (s : String) (d m y : Nat),
    _save_to_history st r true
      = .ok ⟨st.history ++ [r], st.seen, .valid (st.history ++ [r])⟩
    ∧ _load_history (FileState.valid (st.history ++ [r])) = .ok (st.history ++ [r])
    ∧ (st.history ++ [r]).getLast? = some r
    ∧ (st.history ++ [r]).dropLast = st.history
    ∧ (py_slice s 200).length ≤ 200
    ∧ (format_ddmmyyyy d m y).length = 8
    ∧ (d < 100 → m < 100 → y < 10000 →
        (format_ddmmyyyy d m y).data.all Char.isDigit = true) := by
  intro st r s d m y
  refine ⟨rfl, rfl, ?_, List.dropLast_concat .., ?_, rfl, fun hd hm hy => ?_⟩
  · rw [List.getLast?_concat]
  · show (s.data.take 200).length ≤ 200
    rw [List.length_take]
    exact min_le_left _ _
  · have h : ∀ k, k < 10 → (Nat.digitChar k).isDigit = true := by
      intro k hk
      interval_cases k <;> decide
    show [Nat.digitChar (d / 10), Nat.digitChar (d % 10),
          Nat.digitChar (m / 10), Nat.digitChar (m % 10),
          Nat.digitChar (y / 1000), Nat.digitChar (y / 100 % 10),
          Nat.digitChar (y / 10 % 10), Nat.digitChar (y % 10)].all Char.isDigit = true
    simp only [List.all_cons, List.all_nil, Bool.and_eq_true]
    exact ⟨h _ (by omega), h _ (by omega), h _ (by omega), h _ (by omega),
      h _ (by omega), h _ (by omega), h _ (by omega), h _ (by omega), trivial⟩

/-- C7 witness: a concrete append from the empty store round-trips, and
the concrete date 15 June 2024 formats to eight digits. -/
theorem save_load_round_trip_witness :
    _save_to_history ⟨[], ∅, .absent⟩ ⟨some "a", "15062024", "TS", some "T", "S", "green"⟩ true
      = .ok ⟨[⟨some "a", "15062024", "TS", some "T", "S", "green"⟩], ∅,
          .valid [⟨some "a", "15062024", "TS", some "T", "S", "green"⟩]⟩
    ∧ (format_ddmmyyyy 15 6 2024).data.all Char.isDigit = true :=
  ⟨by
    have h := (save_load_round_trip ⟨[], ∅, .absent⟩
      ⟨some "a", "15062024", "TS", some "T", "S", "green"⟩ "" 15 6 2024).1
    simpa using h,
   (save_load_round_trip ⟨[], ∅, .absent⟩
      ⟨some "a", "15062024", "TS", some "T", "S", "green"⟩ "" 15 6 2024).2.2.2.2.2.2
    (by decide) (by decide) (by decide)⟩

/-- C8: under parseable bounds and record dates, the `range` command
returns exactly the records whose date numeral lies inclusively between
the bounds, in insertion order. -/
theorem queryRange_filter :
    ∀ (s e : String) (h : List Record) (a c : Int),
    py_int s = some a → py_int e = some c →
    (∀ r ∈ h, (py_int r.date).isSome) →
    queryRange s e h = .ok (h.filter (fun r =>
      decide (a ≤ (py_int r.date).getD 0 ∧ (py_int r.date).getD 0 ≤ c))) := by
  intro s e h a c hs he hdates
  induction h with
  | nil => rfl
  | cons r rest ih =>
    have hr : (py_int r.date).isSome := hdates r (List.mem_cons_self r rest)
    obtain ⟨b, hb⟩ := Option.isSome_iff_exists.mp hr
    have ihr := ih (fun x hx => hdates x (List.mem_cons_of_mem r hx))
    by_cases hab : a ≤ b
    · by_cases hbc : b ≤ c
      · simp only [queryRange, hs, hb, he, ihr, if_pos hab]
        rw [List.filter_cons_of_pos (by simp [hb, hab, hbc]), if_pos hbc]
      · simp only [queryRange, hs, hb, he, ihr, if_pos hab]
        rw [List.filter_cons_of_neg (by simp [hb, hbc]), if_neg hbc]
    · simp only [queryRange, hs, hb, ihr, if_neg hab]
      rw [List.filter_cons_of_neg (by simp [hb, hab])]

/-- C8 witness: with records dated 01012024, 15062024 and 31122024, the
inclusive range 01012024..15062024 returns exactly the first two. -/
theorem queryRange_filter_witness :
    queryRange "01012024" "15062024"
      [⟨some "a", "01012024", "t1", some "A", "", "green"⟩,
       ⟨some "b", "15062024", "t2", some "B", "", "green"⟩,
       ⟨some "c", "31122024", "t3", some "C", "", "green"⟩]
    = .ok [⟨some "a", "01012024", "t1", some "A", "", "green"⟩,
           ⟨some "b", "15062024", "t2", some "B", "", "green"⟩] :=
  (queryRange_filter "01012024" "15062024"
      [⟨some "a", "01012024", "t1", some "A", "", "green"⟩,
       ⟨some "b", "15062024", "t2", some "B", "", "green"⟩,
       ⟨some "c", "31122024", "t3", some "C", "", "green"⟩]
      1012024 15062024 (by decide) (by decide) (by decide)).trans
    (congrArg Except.ok (by decide))

/-- A list with no `>` at all carries no tag pattern. -/
theorem noTagPat_of_no_gt {l : List Char} (h : '>' ∉ l) : ¬ HasTagPat l := by
  rintro ⟨a, mid, b, rfl, -, -⟩
  exact h (by simp)

/-- C9: the sanitizer strips all well-formed tags —
`clean_text "<p>Hello <b>World</b></p>" = "Hello World"` — and is
idempotent on text containing no occurrence of the tag pattern:
`clean_text (clean_text x) = clean_text x` for every such `x`. -/
theorem clean_text_spec :
    clean_text "<p>Hello <b>World</b></p>" = "Hello World"
    ∧ ∀ x : String, ¬ HasTagPat x.data →
        clean_text (clean_text x) = clean_text x := by
  refine ⟨by decide, fun x hx => ?_⟩
  have h1 : (clean_text x).data = pyStrip x.data := by
    show pyStrip (stripTags x.data) = pyStrip x.data
    rw [stripTags_of_clean hx]
  have h2 : ¬ HasTagPat (pyStrip x.data) := fun h =>
    hx (hasTagPat_of_seg (pyStrip_seg x.data) h)
  show (⟨pyStrip (stripTags (clean_text x).data)⟩ : String) = clean_text x
  rw [h1, stripTags_of_clean h2, pyStrip_pyStrip]
  show (⟨pyStrip x.data⟩ : String) = clean_text x
  exact congrArg String.mk h1.symm

/-- C9 witness: a tag-free text is a fixed point of the sanitizer after
one application. -/
theorem clean_text_spec_witness :
    clean_text (clean_text "Hello World") = clean_text "Hello World" :=
  clean_text_spec.2 "Hello World" (noTagPat_of_no_gt (by decide))

end BolnaPulse
